import Mathlib

/-!
Verification of the aquathone subdomain screenshot pipeline (`aquathone.py`)
against its specification.

The program is shallowly embedded: external capabilities (the HTTP transport,
the HTML title extractor, the headless-browser driver, the filesystem) are
modelled as oracle functions gathered in an `Env` record, and the per-target
worker additionally produces a trace of the external calls it makes, so that
claims about "exactly one attempt" or "capture not attempted" are expressible.
Nondeterministic completion order of the thread pool is modelled by
quantifying over an arbitrary permutation (the completion schedule) of each
batch.
-/

/-- Characters stripped by Python's `str.strip()` (ASCII whitespace). -/
def pyWhitespace (c : Char) : Bool :=
  c = ' ' || c = '\t' || c = '\n' || c = '\r' || c = '\x0b' || c = '\x0c'

/-- Python `s.strip()`: remove leading and trailing whitespace. -/
def pyStrip (s : String) : String :=
  ⟨((s.data.dropWhile pyWhitespace).reverse.dropWhile pyWhitespace).reverse⟩

/-- `load_subdomains` (aquathone.py lines 96-108): the list comprehension
`[line.strip() for line in file if line.strip()]` over the file's lines. -/
def load_subdomains (lines : List String) : List String :=
  (lines.map pyStrip).filter (fun s => ¬ (s = ""))

/-- RequestHeaders: Python dict of header name to value, as an association
list with insertion order and key overwrite (`headers[key] = value`). -/
abbrev Headers := List (String × String)

/-- Python dict assignment `d[k] = v`: overwrite in place if the key exists,
otherwise append at the end. -/
def dictInsert (d : Headers) (k v : String) : Headers :=
  if d.any (fun e => e.1 = k) then
    d.map (fun e => if e.1 = k then (k, v) else e)
  else
    d ++ [(k, v)]

/-- External capabilities consumed by the pipeline, as oracles.
`httpGet url headers` is `requests.get` together with response-body parsing:
`some body` when the GET returns, `none` when it raises
(timeout, connection error, non-parseable response).
`extractTitle body` is `soup.title`: `some t` when a title tag is found.
`browserStart url` tells whether `webdriver.Firefox(...)` succeeds for the
invocation fetching `url`; `captureOk url` tells whether the navigation,
screenshot and directory creation inside the `try` block succeed. -/
structure Env where
  httpGet : String → Headers → Option String
  extractTitle : String → Option String
  browserStart : String → Bool
  captureOk : String → Bool

/-- FetchResult: the tuple `(subdomain, title, screenshot_filename)` returned
by `fetch_subdomain`. -/
structure FetchResult where
  subdomain : String
  title : String
  screenshot : Option String
deriving DecidableEq, Repr

/-- Events of external calls made by the worker, used to state claims about
which operations were attempted. -/
inductive Ev where
  | httpGet (url : String) (headers : Headers)
  | browserStart (url : String)
  | capture (url : String)
  | quitBrowser (url : String)
deriving DecidableEq, Repr

/-- Screenshot path built at aquathone.py line 79:
`f"{screenshot_dir}/{subdomain}.png"` with `screenshot_dir = "screenshots"`.
The subdomain is interpolated verbatim. -/
def screenshot_filename (subdomain : String) : String :=
  "screenshots/" ++ subdomain ++ ".png"

/-- `take_screenshot` (aquathone.py lines 48-94). The WebDriver is created
BEFORE the `try` block, so a failure to start the browser session propagates
as an exception (`Except.error`); failures inside the `try` (makedirs,
navigation, screenshot) are caught and yield `None` (`Except.ok none`).
`driver.quit()` runs in `finally`, hence only when the driver was created. -/
def take_screenshot (env : Env) (url subdomain : String) :
    Except Unit (Option String) × List Ev :=
  if env.browserStart url then
    if env.captureOk url then
      (Except.ok (some (screenshot_filename subdomain)),
        [Ev.browserStart url, Ev.capture url, Ev.quitBrowser url])
    else
      (Except.ok none,
        [Ev.browserStart url, Ev.capture url, Ev.quitBrowser url])
  else
    (Except.error (), [Ev.browserStart url])

/-- `fetch_subdomain` (aquathone.py lines 16-46). Builds `http://{subdomain}`,
performs one GET; on any exception (from the GET, the parsing, or an
exception propagating out of `take_screenshot`) the `except` clause returns
`(subdomain, "Failed to Fetch", None)`. On a successful GET the title is
`soup.title.string` or the `"No Title Found"` sentinel, and the screenshot
reference is whatever `take_screenshot` returned. -/
def fetch_subdomain (env : Env) (subdomain : String) (headers : Headers) :
    FetchResult × List Ev :=
  let url := "http://" ++ subdomain
  match env.httpGet url headers with
  | none => (⟨subdomain, "Failed to Fetch", none⟩, [Ev.httpGet url headers])
  | some body =>
    let title := (env.extractTitle body).getD "No Title Found"
    match take_screenshot env url subdomain with
    | (Except.ok shot, evs) =>
        (⟨subdomain, title, shot⟩, Ev.httpGet url headers :: evs)
    | (Except.error _, evs) =>
        (⟨subdomain, "Failed to Fetch", none⟩, Ev.httpGet url headers :: evs)

/-- `process_subdomains` (aquathone.py lines 110-133): every submitted future
is drained by `as_completed`, in completion order. `sched` is the completion
order, an arbitrary permutation of the submitted batch; each completed future
yields `fetch_subdomain` of its subdomain. -/
def process_subdomains (env : Env) (sched : List String) (headers : Headers) :
    List FetchResult :=
  sched.map (fun s => (fetch_subdomain env s headers).1)

/-- `BATCH_SIZE` (aquathone.py line 14). -/
def BATCH_SIZE : Nat := 100

/-- The batching loop of `split_and_process_subdomains` (aquathone.py lines
171-172): `for i in range(0, len(subdomains), BATCH_SIZE)` with slice
`subdomains[i:i+BATCH_SIZE]`, i.e. repeated take/drop of `B` elements. -/
def chunks (B : Nat) (l : List α) : List (List α) :=
  if _hB : B = 0 then []
  else if hl : l.isEmpty then []
  else l.take B :: chunks B (l.drop B)
termination_by l.length
decreasing_by
  have hne : l ≠ [] := by simpa [List.isEmpty_iff] using hl
  have hpos : 0 < l.length := List.length_pos.mpr hne
  simp only [List.length_drop]
  omega

/-- `split_and_process_subdomains` (aquathone.py lines 159-177): batches are
processed strictly in order; `scheds` gives, for each batch, the completion
order of its futures (a permutation of the batch). The batch results are the
lists handed in turn to `generate_html_report`. -/
def split_and_process_subdomains (env : Env) (subdomains : List String)
    (scheds : List (List String)) (headers : Headers) : List (List FetchResult) :=
  List.zipWith (fun _batch sched => process_subdomains env sched headers)
    (chunks BATCH_SIZE subdomains) scheds

/-- Split a character list at the first occurrence of `c` (Python
`s.split(c, 1)` when it succeeds); `none` when `c` does not occur. -/
def splitAtFirst (c : Char) : List Char → Option (List Char × List Char)
  | [] => none
  | x :: xs =>
    if x = c then some ([], xs)
    else (splitAtFirst c xs).map (fun p => (x :: p.1, p.2))

/-- Python `header.split(":", 1)` destructured into `key, value`: `none`
models the `ValueError` raised when no colon occurs. -/
def splitFirstColon (s : String) : Option (String × String) :=
  (splitAtFirst ':' s.data).map (fun p => (⟨p.1⟩, ⟨p.2⟩))

/-- The header-parsing loop of `main` (aquathone.py lines 191-196):
`key, value = header.split(":", 1); headers[key.strip()] = value.strip()`.
`Except.error ()` models the uncaught `ValueError` (non-zero process exit). -/
def parse_headers (args : List String) (acc : Headers) : Except Unit Headers :=
  match args with
  | [] => Except.ok acc
  | a :: rest =>
    match splitFirstColon a with
    | none => Except.error ()
    | some kv => parse_headers rest (dictInsert acc (pyStrip kv.1) (pyStrip kv.2))

/-- `main` (aquathone.py lines 179-202): parse headers, then load subdomains,
then split and process. A header-parse failure aborts before the input file
is even read, hence before any target is processed. -/
def run_main (headerArgs : List String) (fileLines : List String)
    (scheds : List (List String)) (env : Env) :
    Except Unit (List (List FetchResult)) :=
  match parse_headers headerArgs [] with
  | Except.error e => Except.error e
  | Except.ok headers =>
      Except.ok (split_and_process_subdomains env (load_subdomains fileLines) scheds headers)

/-- Filesystem events performed by the report writer. -/
inductive FsEv where
  | openTruncate (path : String)
  | write (path : String) (data : String)
  | rename (src dst : String)
deriving DecidableEq, Repr

/-- Whether a filesystem event is a rename. -/
def FsEv.isRename : FsEv → Bool
  | FsEv.rename _ _ => true
  | _ => false

/-- Filesystem state: association list from path to content, newest binding
first. -/
def fs_lookup (fs : List (String × String)) (p : String) : Option String :=
  (fs.find? (fun e => e.1 == p)).map (fun e => e.2)

/-- Effect of one filesystem event. `openTruncate` creates/truncates the
file; `write` appends to the current (post-open) content; `rename` moves a
file's content to a new path. -/
def fs_apply (fs : List (String × String)) : FsEv → List (String × String)
  | FsEv.openTruncate p => (p, "") :: fs
  | FsEv.write p d => (p, (fs_lookup fs p).getD "" ++ d) :: fs
  | FsEv.rename src dst =>
    match fs_lookup fs src with
    | some c => (dst, c) :: fs
    | none => fs

/-- Run a sequence of filesystem events from a state. -/
def fs_run (fs : List (String × String)) (evs : List FsEv) : List (String × String) :=
  evs.foldl fs_apply fs

/-- `generate_html_report` (aquathone.py lines 135-157) as the filesystem
events it performs: `open(output_file, "w")` truncates the destination in
place, then the rendered content is written. No temporary file and no rename
are involved. `render` is the external template capability. -/
def generate_html_report (render : List FetchResult → String)
    (results : List FetchResult) (output_file : String) : List FsEv :=
  [FsEv.openTruncate output_file, FsEv.write output_file (render results)]

/-- Modelled from the spec: the bounded thread pool. `ThreadPoolExecutor`
is an external capability (not code of this repository); per its interface,
at most `max_workers` submitted calls run at once. A run state is the list
of batch sizes not yet started plus the current batch's pool (pending
submissions, active workers, completed futures). -/
structure RunState where
  batches : List Nat
  pending : Nat
  active : Nat
  done : Nat
deriving DecidableEq, Repr

/-- Modelled from the spec: transitions of the sequential-batch, bounded-pool
run. A unit may start only when fewer than `C` are active; a batch is entered
only when the previous batch has fully drained (`process_subdomains` returns
only after `as_completed` yields every future). -/
inductive RunStep (C : Nat) : RunState → RunState → Prop
  | start (bs : List Nat) (p a d : Nat) :
      a < C → RunStep C ⟨bs, p + 1, a, d⟩ ⟨bs, p, a + 1, d⟩
  | finish (bs : List Nat) (p a d : Nat) :
      RunStep C ⟨bs, p, a + 1, d⟩ ⟨bs, p, a, d + 1⟩
  | nextBatch (n : Nat) (bs : List Nat) (d : Nat) :
      RunStep C ⟨n :: bs, 0, 0, d⟩ ⟨bs, n, 0, 0⟩

/-- Reachability in the run transition system. -/
abbrev Reachable (C : Nat) (s t : RunState) : Prop :=
  Relation.ReflTransGen (RunStep C) s t

/-- Initial run state for a target list: all batches pending, nothing
dispatched. -/
def runInit (targets : List String) : RunState :=
  ⟨(chunks BATCH_SIZE targets).map List.length, 0, 0, 0⟩

/-- An environment in which every external operation fails. -/
def failEnv : Env :=
  ⟨fun _ _ => none, fun _ => none, fun _ => false, fun _ => false⟩

/-- An environment in which the GET succeeds but the browser session fails
to start. -/
def envNoBrowser : Env :=
  ⟨fun _ _ => some "<title>T</title>", fun _ => some "T",
    fun _ => false, fun _ => false⟩

/-- An environment in which the GET and the browser start succeed but the
capture inside the session fails. -/
def envCapFail : Env :=
  ⟨fun _ _ => some "<title>T</title>", fun _ => some "T",
    fun _ => true, fun _ => false⟩

/-- An environment in which everything succeeds. -/
def okEnv : Env :=
  ⟨fun _ _ => some "<title>T</title>", fun _ => some "T",
    fun _ => true, fun _ => true⟩

/-! ## Lemmas about the batching loop -/

theorem chunks_unfold (B : Nat) (l : List α) :
    chunks B l =
      if B = 0 then []
      else if l.isEmpty then []
      else l.take B :: chunks B (l.drop B) := by
  rw [chunks]; rfl

theorem chunks_nil (B : Nat) : chunks B ([] : List α) = [] := by
  rw [chunks_unfold]; simp

theorem chunks_cons (B : Nat) (l : List α) (hB : B ≠ 0) (hl : l ≠ []) :
    chunks B l = l.take B :: chunks B (l.drop B) := by
  rw [chunks_unfold]
  simp [hB, hl]

theorem chunks_flatten_aux (B : Nat) (hB : B ≠ 0) :
    ∀ (n : Nat) (l : List α), l.length ≤ n → (chunks B l).flatten = l := by
  intro n
  induction n with
  | zero =>
    intro l hl
    have hnil : l = [] := List.eq_nil_of_length_eq_zero (Nat.le_zero.mp hl)
    subst hnil
    simp [chunks_nil]
  | succ n ih =>
    intro l hl
    rcases eq_or_ne l [] with h | h
    · subst h; simp [chunks_nil]
    · rw [chunks_cons B l hB h]
      have hdrop : (l.drop B).length ≤ n := by
        have h1 : (l.drop B).length = l.length - B := List.length_drop B l
        have h2 : 0 < B := Nat.pos_of_ne_zero hB
        have h3 : 0 < l.length := List.length_pos.mpr h
        omega
      simp only [List.flatten_cons]
      rw [ih (l.drop B) hdrop, List.take_append_drop]

theorem chunks_flatten (B : Nat) (hB : B ≠ 0) (l : List α) :
    (chunks B l).flatten = l :=
  chunks_flatten_aux B hB l.length l (le_refl _)

theorem chunks_length_aux (B : Nat) (hB : 0 < B) :
    ∀ (n : Nat) (l : List α), l.length ≤ n →
      (chunks B l).length = (l.length + B - 1) / B := by
  intro n
  induction n with
  | zero =>
    intro l hl
    have hnil : l = [] := List.eq_nil_of_length_eq_zero (Nat.le_zero.mp hl)
    subst hnil
    simp only [chunks_nil, List.length_nil]
    rw [Nat.div_eq_of_lt (by omega)]
  | succ n ih =>
    intro l hl
    rcases eq_or_ne l [] with h | h
    · subst h
      simp only [chunks_nil, List.length_nil]
      rw [Nat.div_eq_of_lt (by omega)]
    · rw [chunks_cons B l (Nat.pos_iff_ne_zero.mp hB) h]
      have hNpos : 0 < l.length := List.length_pos.mpr h
      have hdroplen : (l.drop B).length = l.length - B := List.length_drop B l
      have hdrop : (l.drop B).length ≤ n := by omega
      simp only [List.length_cons]
      rw [ih _ hdrop, hdroplen]
      have h1 : l.length + B - 1 = (l.length - 1) + B := by omega
      rw [h1, Nat.add_div_right _ hB]
      congr 1
      rcases le_or_lt B l.length with hc | hc
      · congr 1
        omega
      · have e1 : l.length - B = 0 := by omega
        rw [e1]
        rw [Nat.div_eq_of_lt (by omega), Nat.div_eq_of_lt (by omega)]

theorem chunks_length (B : Nat) (hB : 0 < B) (l : List α) :
    (chunks B l).length = (l.length + B - 1) / B :=
  chunks_length_aux B hB l.length l (le_refl _)

theorem chunks_mem_length_aux (B : Nat) (hB : 0 < B) :
    ∀ (n : Nat) (l : List α), l.length ≤ n → ∀ c ∈ chunks B l, c.length ≤ B := by
  intro n
  induction n with
  | zero =>
    intro l hl c hc
    have hnil : l = [] := List.eq_nil_of_length_eq_zero (Nat.le_zero.mp hl)
    subst hnil
    rw [chunks_nil] at hc
    exact absurd hc (List.not_mem_nil c)
  | succ n ih =>
    intro l hl c hc
    rcases eq_or_ne l [] with h | h
    · subst h
      rw [chunks_nil] at hc
      exact absurd hc (List.not_mem_nil c)
    · rw [chunks_cons B l (Nat.pos_iff_ne_zero.mp hB) h] at hc
      rcases List.mem_cons.mp hc with rfl | hc
      · exact List.length_take_le B l
      · have hNpos : 0 < l.length := List.length_pos.mpr h
        have hdroplen : (l.drop B).length = l.length - B := List.length_drop B l
        exact ih (l.drop B) (by omega) c hc

theorem chunks_mem_length (B : Nat) (hB : 0 < B) (l : List α) :
    ∀ c ∈ chunks B l, c.length ≤ B :=
  chunks_mem_length_aux B hB l.length l (le_refl _)

theorem chunks_getLast_aux (B : Nat) (hB : 0 < B) :
    ∀ (n : Nat) (l : List α), l.length ≤ n → l ≠ [] →
      ∃ c, (chunks B l).getLast? = some c ∧
        c.length = (if l.length % B = 0 then B else l.length % B) := by
  intro n
  induction n with
  | zero =>
    intro l hl hne
    exact absurd (List.eq_nil_of_length_eq_zero (Nat.le_zero.mp hl)) hne
  | succ n ih =>
    intro l hl hne
    have hBne : B ≠ 0 := Nat.pos_iff_ne_zero.mp hB
    rw [chunks_cons B l hBne hne]
    rcases eq_or_ne (l.drop B) [] with hd | hd
    · have hlen : l.length ≤ B := by
        have h1 : (l.drop B).length = l.length - B := List.length_drop B l
        rw [hd] at h1
        simp at h1
        omega
      rw [hd, chunks_nil]
      refine ⟨l.take B, rfl, ?_⟩
      rw [List.take_of_length_le hlen]
      rcases eq_or_lt_of_le hlen with heq | hlt
      · rw [heq]
        simp [Nat.mod_self]
      · rw [Nat.mod_eq_of_lt hlt]
        rw [if_neg]
        have := List.length_pos.mpr hne
        omega
    · have hgt : B < l.length := by
        have h1 : (l.drop B).length = l.length - B := List.length_drop B l
        have h2 : 0 < (l.drop B).length := List.length_pos.mpr hd
        omega
      obtain ⟨c, hc1, hc2⟩ :=
        ih (l.drop B) (by have := List.length_drop B l; omega) hd
      have hne2 : chunks B (l.drop B) ≠ [] := by
        intro hcontra
        rw [hcontra] at hc1
        simp at hc1
      refine ⟨c, ?_, ?_⟩
      · cases hM : chunks B (l.drop B) with
        | nil => exact absurd hM hne2
        | cons hd2 tl2 =>
          rw [hM] at hc1
          rw [List.getLast?_cons_cons]
          exact hc1
      · rw [hc2]
        have hmod : (l.drop B).length % B = l.length % B := by
          rw [List.length_drop]
          exact (Nat.mod_eq_sub_mod (le_of_lt hgt)).symm
        rw [hmod]

theorem chunks_getLast (B : Nat) (hB : 0 < B) (l : List α) (hne : l ≠ []) :
    ∃ c, (chunks B l).getLast? = some c ∧
      c.length = (if l.length % B = 0 then B else l.length % B) :=
  chunks_getLast_aux B hB l.length l (le_refl _) hne

/-! ## Lemmas about the per-target worker -/

theorem fetch_subdomain_fst (env : Env) (s : String) (hdrs : Headers) :
    (fetch_subdomain env s hdrs).1.subdomain = s := by
  unfold fetch_subdomain take_screenshot
  cases h : env.httpGet ("http://" ++ s) hdrs <;>
    by_cases hb : env.browserStart ("http://" ++ s) <;>
      by_cases hc : env.captureOk ("http://" ++ s) <;>
        simp [h, hb, hc]

theorem process_subdomains_map_subdomain (env : Env) (sched : List String)
    (hdrs : Headers) :
    (process_subdomains env sched hdrs).map FetchResult.subdomain = sched := by
  unfold process_subdomains
  rw [List.map_map]
  have hfun : (FetchResult.subdomain ∘ fun s => (fetch_subdomain env s hdrs).1) = id := by
    funext s
    exact fetch_subdomain_fst env s hdrs
  rw [hfun, List.map_id]

/-! ## Claim theorems -/

/-- C4: for every target list of length N and batch size B > 0, the batcher
partitions the list into exactly ceil(N/B) batches that preserve input order
and contiguity (their concatenation is the input list, so every target
belongs to exactly one batch), each batch has size at most B, and the last
batch has size N mod B (or B if N is divisible by B). -/
theorem c4_batcher_partitions (B : Nat) (l : List String) (hB : 0 < B) :
    (chunks B l).length = (l.length + B - 1) / B
    ∧ (chunks B l).flatten = l
    ∧ (∀ c ∈ chunks B l, c.length ≤ B)
    ∧ (l ≠ [] → ∃ c, (chunks B l).getLast? = some c ∧
        c.length = (if l.length % B = 0 then B else l.length % B)) :=
  ⟨chunks_length B hB l, chunks_flatten B (Nat.pos_iff_ne_zero.mp hB) l,
    chunks_mem_length B hB l, chunks_getLast B hB l⟩

/-- Witness for C4 at B = 2 and a three-element list: two full batches would
not fit, so there are ceil(3/2) = 2 batches whose concatenation is the input. -/
theorem c4_batcher_partitions_witness :
    (chunks 2 ["a", "b", "c"]).flatten = ["a", "b", "c"]
    ∧ (chunks 2 ["a", "b", "c"]).length = (3 + 2 - 1) / 2 := by
  have h := c4_batcher_partitions 2 ["a", "b", "c"] (by decide)
  exact ⟨h.2.1, h.1⟩

/-- C8: the target loader returns exactly the ordered sequence of the
non-empty whitespace-trimmed lines: it is an order-preserving sublist of the
trimmed lines, contains exactly the non-blank trimmed lines, and on the
3-line example file yields exactly the 2 targets in order. -/
theorem c8_loader_trims_and_filters (lines : List String) :
    (load_subdomains lines).Sublist (lines.map pyStrip)
    ∧ (∀ s ∈ load_subdomains lines, s ≠ "" ∧ s ∈ lines.map pyStrip)
    ∧ (∀ l ∈ lines, pyStrip l ≠ "" → pyStrip l ∈ load_subdomains lines)
    ∧ load_subdomains ["example.com", "", "test.org"] = ["example.com", "test.org"] := by
  refine ⟨List.filter_sublist _, ?_, ?_, by decide⟩
  · intro s hs
    have h := List.mem_filter.mp hs
    exact ⟨by simpa using h.2, h.1⟩
  · intro l hl hne
    exact List.mem_filter.mpr ⟨List.mem_map_of_mem _ hl, by simpa using hne⟩

/-- Witness for C8: the example file's first line is loaded. -/
theorem c8_loader_witness :
    "example.com" ∈ load_subdomains ["example.com", "", "test.org"] := by
  have h := (c8_loader_trims_and_filters ["example.com", "", "test.org"]).2.2.1
  exact h "example.com" (by decide) (by decide)

/-- C3: for a target whose HTTP fetch fails at the network level, the worker
makes exactly one attempt (the trace is exactly one GET event), produces the
"Failed to Fetch" sentinel with an absent image reference, and no capture
event occurs. -/
theorem c3_network_failure_one_attempt (env : Env) (s : String) (hdrs : Headers)
    (h : env.httpGet ("http://" ++ s) hdrs = none) :
    (fetch_subdomain env s hdrs).1 = ⟨s, "Failed to Fetch", none⟩
    ∧ (fetch_subdomain env s hdrs).2 = [Ev.httpGet ("http://" ++ s) hdrs] := by
  unfold fetch_subdomain
  simp [h]

/-- Witness for C3 in the all-failing environment. -/
theorem c3_network_failure_witness :
    (fetch_subdomain failEnv "example.com" []).1
      = ⟨"example.com", "Failed to Fetch", none⟩
    ∧ (fetch_subdomain failEnv "example.com" []).2
      = [Ev.httpGet "http://example.com" []] :=
  c3_network_failure_one_attempt failEnv "example.com" [] rfl

/-- C2 counterexample: in `envNoBrowser` the GET succeeds and a title is
extractable, but the browser session fails to start; `take_screenshot`
propagates the exception (the driver is created outside its `try` block) and
`fetch_subdomain`'s `except` clause replaces the already-extracted title with
the fetch-failure sentinel — contradicting the claim that a capture failure
never changes the title to the fetch-failure sentinel. -/
theorem c2_counterexample_browser_start :
    envNoBrowser.httpGet "http://example.com" [] = some "<title>T</title>"
    ∧ (take_screenshot envNoBrowser "http://example.com" "example.com").1
      = Except.error ()
    ∧ (fetch_subdomain envNoBrowser "example.com" []).1
      = ⟨"example.com", "Failed to Fetch", none⟩ :=
  ⟨rfl, rfl, rfl⟩

/-- C2 as amended: when the fetch succeeds and the browser session starts but
the capture inside the session fails, the result keeps the extracted title
(or the "No Title Found" sentinel) with an absent image reference; when the
browser session fails to start, however, the worker reports the fetch-failure
sentinel (still with an absent image reference). -/
theorem c2_amended_capture_failure (env : Env) (s : String) (hdrs : Headers)
    (body : String) (hget : env.httpGet ("http://" ++ s) hdrs = some body) :
    (env.browserStart ("http://" ++ s) = true →
      env.captureOk ("http://" ++ s) = false →
      (fetch_subdomain env s hdrs).1
        = ⟨s, (env.extractTitle body).getD "No Title Found", none⟩)
    ∧ (env.browserStart ("http://" ++ s) = false →
      (fetch_subdomain env s hdrs).1 = ⟨s, "Failed to Fetch", none⟩) := by
  constructor
  · intro h1 h2
    unfold fetch_subdomain take_screenshot
    simp [hget, h1, h2]
  · intro h1
    unfold fetch_subdomain take_screenshot
    simp [hget, h1]

/-- Witness for C2 as amended: in `envCapFail` the session starts, the
capture fails, and the extracted title "T" is kept with no image. -/
theorem c2_amended_witness :
    (fetch_subdomain envCapFail "example.com" []).1 = ⟨"example.com", "T", none⟩ :=
  (c2_amended_capture_failure envCapFail "example.com" [] "<title>T</title>" rfl).1
    rfl rfl

/-- C6 counterexample: the screenshot filename is built by interpolating the
raw target into `screenshots/{target}.png` with no character sanitization:
for the target `a/b` the path separator survives, so the file would not be a
flat entry of the screenshots directory (two separators, not one). -/
theorem c6_counterexample_no_sanitization :
    screenshot_filename "a/b" = "screenshots/a/b.png"
    ∧ ¬ ((screenshot_filename "a/b").data.count '/' ≤ 1) := by
  decide

/-- C6 as amended: the filename is deterministic — exactly
`screenshots/{target}.png` with the target interpolated verbatim and no
sanitization — and only for targets free of path separators it is a valid
flat name under the screenshots directory. -/
theorem c6_amended_filename (s : String) :
    screenshot_filename s = "screenshots/" ++ s ++ ".png"
    ∧ ('/' ∉ s.data → (screenshot_filename s).data.count '/' = 1) := by
  refine ⟨rfl, ?_⟩
  intro h
  show ("screenshots/" ++ s ++ ".png").data.count '/' = 1
  have e : ("screenshots/" ++ s ++ ".png").data
      = ("screenshots/".data ++ s.data) ++ ".png".data := rfl
  rw [e, List.count_append, List.count_append]
  have h0 : s.data.count '/' = 0 := List.count_eq_zero.mpr h
  rw [h0]
  decide

/-- Witness for C6 as amended at a separator-free target. -/
theorem c6_amended_witness : (screenshot_filename "ab").data.count '/' = 1 :=
  (c6_amended_filename "ab").2 (by decide)

/-- C10: the per-target worker is total by construction (every failure is a
returned failure record, so the coordinator's `future.result()` never
re-raises), and the first component of the returned triple always equals the
input target, so every collected result is attributed to the target that
produced it, in any completion order. -/
theorem c10_worker_total_attribution (env : Env) (s : String) (hdrs : Headers)
    (sched : List String) :
    (fetch_subdomain env s hdrs).1.subdomain = s
    ∧ (process_subdomains env sched hdrs).map FetchResult.subdomain = sched :=
  ⟨fetch_subdomain_fst env s hdrs, process_subdomains_map_subdomain env sched hdrs⟩

/-- Witness for C10 in a concrete environment and schedule. -/
theorem c10_worker_witness :
    (fetch_subdomain okEnv "example.com" []).1.subdomain = "example.com"
    ∧ (process_subdomains okEnv ["b", "a"] []).map FetchResult.subdomain = ["b", "a"] :=
  c10_worker_total_attribution okEnv "example.com" [] ["b", "a"]

/-! ## Remaining claims: whole-run counting, headers, report writing, pool -/

theorem zipWith_process_flatten_perm (env : Env) (hdrs : Headers) :
    ∀ {batches scheds : List (List String)},
      List.Forall₂ (fun b s => List.Perm s b) batches scheds →
      ((List.zipWith (fun _b s => process_subdomains env s hdrs) batches
        scheds).flatten.map FetchResult.subdomain).Perm batches.flatten := by
  intro batches scheds h
  induction h with
  | nil => simp
  | cons hp _ht ih =>
    simp only [List.zipWith_cons_cons, List.flatten_cons, List.map_append,
      process_subdomains_map_subdomain]
    exact hp.append ih

/-- C1: for every completion schedule (one arbitrary permutation per batch),
the multiset of target identifiers across all collected results is exactly
the multiset of loaded targets — no target is dropped, whatever the
environment does — and the number of results across all batches equals the
number of non-blank input lines. -/
theorem c1_every_target_one_result (env : Env) (lines : List String)
    (scheds : List (List String)) (hdrs : Headers)
    (hsched : List.Forall₂ (fun b s => List.Perm s b)
      (chunks BATCH_SIZE (load_subdomains lines)) scheds) :
    ((split_and_process_subdomains env (load_subdomains lines) scheds hdrs).flatten.map
      FetchResult.subdomain).Perm (load_subdomains lines)
    ∧ ((split_and_process_subdomains env (load_subdomains lines) scheds hdrs).map
        List.length).sum = (load_subdomains lines).length := by
  unfold split_and_process_subdomains
  have hperm := zipWith_process_flatten_perm env hdrs hsched
  rw [chunks_flatten BATCH_SIZE (by decide) (load_subdomains lines)] at hperm
  refine ⟨hperm, ?_⟩
  have hlen := hperm.length_eq
  rw [List.length_map] at hlen
  rw [← List.length_flatten]
  exact hlen

/-- Witness for C1: a 3-line file with one blank line, one batch, completion
order reversed; the two loaded targets yield two results. -/
theorem c1_every_target_witness :
    ((split_and_process_subdomains failEnv (load_subdomains ["a", "", "b"])
      [["b", "a"]] []).map List.length).sum = (load_subdomains ["a", "", "b"]).length := by
  have h1 : load_subdomains ["a", "", "b"] = ["a", "b"] := by decide
  have hch : chunks BATCH_SIZE (load_subdomains ["a", "", "b"]) = [["a", "b"]] := by
    rw [h1, chunks_cons BATCH_SIZE ["a", "b"] (by decide) (by decide)]
    have ht : List.take BATCH_SIZE ["a", "b"] = ["a", "b"] := by decide
    have hd : List.drop BATCH_SIZE ["a", "b"] = ([] : List String) := by decide
    rw [ht, hd, chunks_nil]
  have hf : List.Forall₂ (fun b s => List.Perm s b)
      (chunks BATCH_SIZE (load_subdomains ["a", "", "b"])) [["b", "a"]] := by
    rw [hch]
    exact List.Forall₂.cons (List.Perm.swap "a" "b" []) List.Forall₂.nil
  exact (c1_every_target_one_result failEnv ["a", "", "b"] [["b", "a"]] [] hf).2

theorem parse_headers_error_of_malformed :
    ∀ (args : List String) (acc : Headers) (a : String),
      a ∈ args → splitFirstColon a = none →
      parse_headers args acc = Except.error () := by
  intro args
  induction args with
  | nil =>
    intro acc a ha
    exact absurd ha (List.not_mem_nil a)
  | cons x rest ih =>
    intro acc a ha hnone
    rcases List.mem_cons.mp ha with rfl | ha
    · simp [parse_headers, hnone]
    · cases hx : splitFirstColon x with
      | none => simp [parse_headers, hx]
      | some kv =>
        simp only [parse_headers, hx]
        exact ih _ a ha hnone

/-- C9: the single argument "X-Test: 1" parses (splitting at the first colon
and trimming) to exactly one entry, key X-Test, value 1; the headers given to
the worker are the headers of its one outgoing GET; and an argument with no
colon separator makes the whole run fail before any target is processed,
whatever the input file contains. -/
theorem c9_header_parsing :
    parse_headers ["X-Test: 1"] [] = Except.ok [("X-Test", "1")]
    ∧ (∀ (env : Env) (s : String) (hdrs : Headers),
        (fetch_subdomain env s hdrs).2.head? = some (Ev.httpGet ("http://" ++ s) hdrs))
    ∧ (∀ (args : List String) (a : String), a ∈ args → splitFirstColon a = none →
        ∀ (fileLines : List String) (scheds : List (List String)) (env : Env),
          run_main args fileLines scheds env = Except.error ()) := by
  refine ⟨rfl, ?_, ?_⟩
  · intro env s hdrs
    unfold fetch_subdomain take_screenshot
    cases h : env.httpGet ("http://" ++ s) hdrs <;>
      by_cases hb : env.browserStart ("http://" ++ s) <;>
        by_cases hc : env.captureOk ("http://" ++ s) <;>
          simp [h, hb, hc]
  · intro args a ha hnone fileLines scheds env
    unfold run_main
    rw [parse_headers_error_of_malformed args [] a ha hnone]

/-- Witness for C9: a colon-free header argument aborts the run. -/
theorem c9_header_witness :
    run_main ["NoColon"] ["a"] [] failEnv = Except.error () :=
  c9_header_parsing.2.2 ["NoColon"] "NoColon" (by decide) (by decide) ["a"] [] failEnv

/-- C7 counterexample: the report writer truncates the destination in place
and then writes; after the first of its two filesystem events the destination
exists with empty content, which differs from the complete document, and no
rename event occurs at all — so a reader can observe a partially written
file, contradicting write-then-rename atomicity. -/
theorem c7_counterexample_not_atomic :
    fs_lookup (fs_run []
        ((generate_html_report (fun _ => "<html>") [] "out.html").take 1)) "out.html"
      = some ""
    ∧ some "" ≠ some "<html>"
    ∧ fs_lookup (fs_run []
        (generate_html_report (fun _ => "<html>") [] "out.html")) "out.html"
      = some "<html>"
    ∧ (generate_html_report (fun _ => "<html>") [] "out.html").all
        (fun e => !(FsEv.isRename e)) = true := by
  decide

/-- C7 as amended: the report is written by truncating the destination in
place and writing the rendered document in full; the final state holds the
complete content, but after the truncating open (and before the write) the
destination exists with empty content, so the write is not atomic. -/
theorem c7_amended_in_place_write (render : List FetchResult → String)
    (results : List FetchResult) (path : String) :
    fs_lookup (fs_run [] (generate_html_report render results path)) path
      = some (render results)
    ∧ fs_lookup (fs_run [] ((generate_html_report render results path).take 1)) path
      = some "" := by
  constructor
  · simp [generate_html_report, fs_run, fs_apply, fs_lookup]
  · simp [generate_html_report, fs_run, fs_apply, fs_lookup]

/-- Witness for C7 as amended with a concrete renderer and path. -/
theorem c7_amended_witness :
    fs_lookup (fs_run [] (generate_html_report (fun _ => "R") [] "o.html")) "o.html"
      = some "R" :=
  (c7_amended_in_place_write (fun _ => "R") [] "o.html").1

theorem runStep_active_le (C : Nat) {s t : RunState} (h : RunStep C s t)
    (hs : s.active ≤ C) : t.active ≤ C := by
  cases h with
  | start bs p a d hlt => simpa using hlt
  | finish bs p a d =>
    simp only at hs ⊢
    omega
  | nextBatch n bs d => simp

theorem reachable_active_le (C : Nat) (targets : List String) (s : RunState)
    (h : Reachable C (runInit targets) s) : s.active ≤ C := by
  induction h with
  | refl => simp [runInit]
  | tail _hab hbc ih => exact runStep_active_le C hbc ih

theorem reachable_starts (C : Nat) (bs : List Nat) (d : Nat) :
    ∀ (k p a : Nat), a + k ≤ C →
      Relation.ReflTransGen (RunStep C) ⟨bs, p + k, a, d⟩ ⟨bs, p, a + k, d⟩ := by
  intro k
  induction k with
  | zero =>
    intro p a _h
    simpa using Relation.ReflTransGen.refl
  | succ k ih =>
    intro p a h
    have h1 : RunStep C ⟨bs, p + (k + 1), a, d⟩ ⟨bs, p + k, a + 1, d⟩ := by
      have he : p + (k + 1) = (p + k) + 1 := by omega
      rw [he]
      exact RunStep.start bs (p + k) a d (by omega)
    have h3 : a + (k + 1) = a + 1 + k := by omega
    rw [h3]
    exact Relation.ReflTransGen.head h1 (ih p (a + 1) (by omega))

/-- C5: in the sequential-batch bounded-pool model of the run, every state
reachable from the initial state (batches as produced by the batcher, nothing
dispatched) has at most C active fetch+capture units — the bound holds for
the whole run, not C per batch — and when the first batch has at least C
targets the bound C is actually attained. -/
theorem c5_pool_bounds_concurrency (C : Nat) (targets : List String) :
    (∀ s : RunState, Reachable C (runInit targets) s → s.active ≤ C)
    ∧ (∀ (n : Nat) (bs : List Nat),
        (chunks BATCH_SIZE targets).map List.length = n :: bs → C ≤ n →
        ∃ s : RunState, Reachable C (runInit targets) s ∧ s.active = C) := by
  constructor
  · exact reachable_active_le C targets
  · intro n bs hsizes hCn
    refine ⟨⟨bs, n - C, C, 0⟩, ?_, rfl⟩
    have h1 : RunStep C (runInit targets) ⟨bs, n, 0, 0⟩ := by
      unfold runInit
      rw [hsizes]
      exact RunStep.nextBatch n bs 0
    have h2 := reachable_starts C bs 0 C (n - C) 0 (by omega)
    have h3 : n - C + C = n := by omega
    rw [h3] at h2
    have h4 : (0 : Nat) + C = C := by omega
    rw [h4] at h2
    exact Relation.ReflTransGen.head h1 h2

/-- Witness for C5: the initial state of a one-target run never exceeds the
bound. -/
theorem c5_pool_witness : (runInit ["a"]).active ≤ 2 :=
  (c5_pool_bounds_concurrency 2 ["a"]).1 (runInit ["a"]) Relation.ReflTransGen.refl
